import Mathlib

/-!
Verification development for the nuget_publish GitHub action.

The program (a Node.js action, `Publisher` class) extracts package versions
from manifest files, queries a NuGet registry to decide which packages need
publishing, optionally tags the triggering commit, and builds/packs/pushes
the packages.  This file gives a shallow embedding of the action's core
functions (the current `Publisher` class, the one with tagging support) and
proves/refutes the behavioural claims about it.

Conventions of the embedding:
  * JS strings are Lean `String`s; operations mirror the exact JS semantics
    used by the source (`split`, `replace` with a `g` regex, `substring`,
    `startsWith`, `toLowerCase`).
  * A JS value that may be `undefined` is an `Option`.
  * External collaborators (filesystem, HTTPS registry, GitHub API,
    subprocesses, the regex engine, the Luxon date library) are modelled as
    explicit inputs (`World`) or small faithful models (`luxonToFormat` for
    the format tokens the action uses).
  * Side effects are recorded as an event trace (`Ev`).  Crucially, the
    current source's `_printErrorAndBail` calls `core.error` and
    `core.setFailed`, which mark the run failed but DO NOT throw, so in this
    embedding a bail is an `Ev.bail` event after which execution continues,
    exactly as in the source.
-/

/-- A UTC timestamp as the action uses it (`DateTime.utc()` at startup). -/
structure DateTimeUTC where
  year : Nat
  month : Nat
  day : Nat
  hour : Nat
  minute : Nat
deriving DecidableEq, Repr

/-- Two-digit zero padding, as Luxon renders two-letter tokens. -/
def pad2 (n : Nat) : String :=
  if n < 10 then "0" ++ toString n else toString n

/-- Value of one Luxon format token (a run of `len` copies of `c`), for the
tokens the action's templates use.  `none` for runs Luxon would not treat as
one of these tokens; the model then emits the run literally. -/
def luxonToken (d : DateTimeUTC) (c : Char) (len : Nat) : Option String :=
  match c, len with
  | 'y', 2 => some (pad2 (d.year % 100))
  | 'y', 4 => some (toString d.year)
  | 'M', 2 => some (pad2 d.month)
  | 'd', 2 => some (pad2 d.day)
  | 'H', 2 => some (pad2 d.hour)
  | 'm', 2 => some (pad2 d.minute)
  | _, _ => none

/-- Run-length encoding of a format string: maximal runs of one character,
in order. -/
def charRuns : List Char → List (Char × Nat)
  | [] => []
  | c :: cs =>
    match charRuns cs with
    | (c', n) :: rest => if c = c' then (c, n + 1) :: rest else (c, 1) :: (c', n) :: rest
    | [] => [(c, 1)]

/-- Model of Luxon's `DateTime.toFormat`: the format string is split into
maximal runs of one character; recognised token runs render as date fields,
anything else is emitted literally. -/
def luxonToFormat (d : DateTimeUTC) (fmt : List Char) : String :=
  String.join ((charRuns fmt).map (fun p =>
    (luxonToken d p.1 p.2).getD (String.mk (List.replicate p.2 p.1))))

/-- JS `pat.isPrefixOf`-style search: the tail of `s` starting at the first
occurrence of `pat`, or `none` when `pat` does not occur.  This is the
position at which a JS regex made of literal characters first matches. -/
def firstOccurrenceTail (pat : List Char) : List Char → Option (List Char)
  | [] => if pat = [] then some [] else none
  | c :: cs => if pat.isPrefixOf (c :: cs) then some (c :: cs) else firstOccurrenceTail pat cs

/-- JS `String.prototype.includes` / `/pat/.test(s)` for a literal pattern. -/
def hasSubstr (pat s : String) : Bool :=
  (firstOccurrenceTail pat.toList s.toList).isSome

/-- JS `s.replace(pat, repl)` with a plain-string pattern: replace the first
occurrence only. -/
def jsReplaceFirst (pat repl : List Char) : List Char → List Char
  | [] => []
  | c :: cs =>
    if pat.isPrefixOf (c :: cs) then repl ++ (c :: cs).drop pat.length
    else c :: jsReplaceFirst pat repl cs

/-- JS `s.replace(/c/g, repl)` for a single-character pattern: every
occurrence of the character is replaced by `repl`. -/
def jsReplaceAllChar (c : Char) (repl : String) (s : String) : String :=
  String.mk ((s.toList.map (fun x => if x = c then repl.toList else [x])).flatten)

/-- JS template-literal / `replace` coercion of a possibly-`undefined`
string. -/
def jsStr (v : Option String) : String := v.getD "undefined"

/-- ASCII lowercasing, as `toLowerCase()` acts on the action's inputs. -/
def jsToLower (s : String) : String :=
  String.mk (s.toList.map (fun c =>
    if 'A' ≤ c ∧ c ≤ 'Z' then Char.ofNat (c.toNat + 32) else c))

/-- Splitting a character list at every occurrence of `sep`; `acc` holds the
current piece reversed. -/
def splitCharAux (sep : Char) : List Char → List Char → List (List Char)
  | [], acc => [acc.reverse]
  | c :: cs, acc =>
    if c = sep then acc.reverse :: splitCharAux sep cs []
    else splitCharAux sep cs (c :: acc)

/-- JS `s.split(sep)` for a one-character separator (the only kind the
action uses); `"".split(sep)` yields `[""]`. -/
def jsSplit (s : String) (sep : Char) : List String :=
  (splitCharAux sep s.toList []).map String.mk

/-- JS `s.split(sep, limit)`: the full split truncated to `limit` pieces. -/
def jsSplitLimit (s : String) (sep : Char) (limit : Nat) : List String :=
  (jsSplit s sep).take limit

/-- JS `Array.prototype.join(sep)`. -/
def jsJoin (sep : String) : List String → String
  | [] => ""
  | [x] => x
  | x :: y :: xs => x ++ sep ++ jsJoin sep (y :: xs)

/-- The first match of the regex `/\x7b([^\x7d]+)\x7d/` in the source's
`_performDateInfill`: scanning left to right, the first `{` that is followed
by at least one non-`}` character and then a `}`.  Returns the captured
group `m[1]` (the format string between the braces); `m[0]` is then
`"\x7b" ++ m[1] ++ "\x7d"`. -/
def braceMatchFirst : List Char → Option (List Char)
  | [] => none
  | c :: cs =>
    if c = '{' then
      let run := cs.takeWhile (· ≠ '}')
      if run ≠ [] ∧ (cs.drop run.length).head? = some '}' then some run
      else braceMatchFirst cs
    else braceMatchFirst cs

/-- `Publisher._performDateInfill`: if the suffix template contains a
`\x7b format \x7d` placeholder, render the current UTC timestamp with that
format string (Luxon `toFormat`) and substitute it for the first occurrence
of the placeholder text. -/
def performDateInfill (now : DateTimeUTC) (versionSuffix : String) : String :=
  match braceMatchFirst versionSuffix.toList with
  | none => versionSuffix
  | some fmt =>
    let replaceThis : List Char := '{' :: fmt ++ ['}']
    let dateFormatted := luxonToFormat now fmt
    String.mk (jsReplaceFirst replaceThis dateFormatted.toList versionSuffix.toList)

/-- `Publisher._performHashReplacement`: every `*` in the suffix is replaced
by the first 7 characters of the triggering commit hash
(`sha.substring(0,7)`). -/
def performHashReplacement (sha : String) (versionSuffix : String) : String :=
  jsReplaceAllChar '*' (String.mk (sha.toList.take 7)) versionSuffix

/-- The suffix-template transformation applied by
`_getBranchVersionSuffix` (source lines 70–71): date infill first, then hash
replacement. -/
def applySuffixTemplate (now : DateTimeUTC) (sha : String) (template : String) : String :=
  performHashReplacement sha (performDateInfill now template)



/-! ## The `Publisher` configuration

The class constructor reads the action's inputs from the environment.  The
embedding keeps the parsed fields; the raw `INPUT_INCLUDE_SYMBOLS` value is
kept as read (an `Option String`, `none` when the variable is unset) because
the two derived command-line fragments are computed from it. -/

structure Publisher where
  nugetSource : String
  nugetKey : String
  includeSymbols : Option String
  projectFiles : List String
  tagCommits : List String
  tagFormat : String
  branchVersionSuffixes : List String
  headBranch : String
  githubToken : String
  now : DateTimeUTC
  sha : String

/-- Constructor field `buildSymbolsString`:
`(INPUT_INCLUDE_SYMBOLS || "false").toLowerCase() === "true"` selects the
symbol-package pack flags, else the empty string. -/
def buildSymbolsString (includeSymbols : Option String) : String :=
  if jsToLower (includeSymbols.getD "false") = "true"
  then " --include-symbols -p:SymbolPackageFormat=snupkg "
  else ""

/-- Constructor field `publishSymbolsString` of the current source:
`(INPUT_INCLUDE_SYMBOLS || "false").toLowerCase() === "false"` selects
`" -n 1 "`, else the empty string.  (Note the comparison is with `"false"`:
the parameter is added exactly when symbols are NOT included.) -/
def publishSymbolsString (includeSymbols : Option String) : String :=
  if jsToLower (includeSymbols.getD "false") = "false"
  then " -n 1 "
  else ""

/-- `Publisher._getPackageName`: the manifest's basename minus its last
dot-separated component (`path.basename(p).split('.').slice(0,-1).join('.')`). -/
def getPackageName (projectFilePath : String) : String :=
  let base := ((jsSplit projectFilePath '/').reverse.headD projectFilePath)
  jsJoin "." (jsSplit base '.').dropLast


/-! ## Event traces

Observable actions of a run.  `bail` is `_printErrorAndBail`: it logs the
error and calls `core.setFailed`, marking the run failed, but does not throw
— control continues at the statement after the call.  `crash` is an
uncaught synchronous exception (a JS `TypeError`), which does reject the
surrounding promise. -/

inductive Ev where
  | info (msg : String)
  | debug (msg : String)
  | bail (msg : String)
  | crash (msg : String)
  | createTag (name : String)
  | createRef (name : String)
  | buildCmd (cmd : String)
  | packCmd (cmd : String)
  | pushCmd (cmd : String)
deriving DecidableEq, Repr

def Ev.isBail : Ev → Bool
  | .bail _ => true
  | _ => false

/-! ## Push-output scanning (`Publisher.pushToServer`) -/

/-- Captured output of a `spawnSync` invocation with `encoding: "utf-8"`. -/
structure CmdOutput where
  stdout : String
  stderr : String
deriving DecidableEq, Repr

/-- `/error/.test(pushResults)`. -/
def jsTestError (s : String) : Bool := hasSubstr "error" s

/-- `/error.*/.exec(pushResults)[0]`: from the first occurrence of
`error`, the match extends greedily to the end of the line (`.` matches
neither `\n` nor `\r`). -/
def jsExecErrorLine (s : String) : Option String :=
  (firstOccurrenceTail "error".toList s.toList).map
    (fun tail => String.mk (tail.takeWhile (fun c => !(c == '\n' || c == '\r'))))

/-- The push command line assembled by `pushToServer`. -/
def pushCommand (p : Publisher) : String :=
  "dotnet nuget push *.nupkg -s " ++ p.nugetSource ++ "/v3/index.json -k " ++ p.nugetKey
    ++ " --skip-duplicate" ++ publishSymbolsString p.includeSymbols

/-- `Publisher.pushToServer`: list the artifacts, run the push command
capturing its output, log the captured standard output, and bail iff that
standard output contains the substring `error`, with the first
`error`-to-end-of-line match as the message.  Only `stdout` of the spawn
result is inspected (`._runCommand(...).stdout`). -/
def pushToServer (p : Publisher) (artifacts : List String) (output : CmdOutput) : List Ev :=
  let pushResults := output.stdout
  [Ev.info ("Sending packages... (" ++ jsJoin ", " artifacts ++ ")"),
   Ev.pushCmd (pushCommand p),
   Ev.info pushResults]
    ++ (if jsTestError pushResults
        then [Ev.bail (jsStr (jsExecErrorLine pushResults))]
        else [])




/-! ## Version extraction (`Publisher.getFileVersions`)

The regex engine is external; one call `rgx.exec(data)` is modelled by its
result: `none` when the pattern does not match, otherwise the match array —
`whole` is `m[0]` and `groups` the capture groups `m[1], m[2], …` (a group
is `none` when the pattern has fewer groups or the group did not
participate). -/

structure ExecResult where
  whole : String
  groups : List (Option String)
deriving DecidableEq, Repr

/-- JS indexing `m[i]` into a match array. -/
def ExecResult.jsIndex (m : ExecResult) (i : Nat) : Option String :=
  if i = 0 then some m.whole else (m.groups.get? (i - 1)).join

/-- One registry response for
`GET \x7bsource\x7d/v3-flatcontainer/\x7bpackageName\x7d/index.json`
(`Publisher._getVersionExists`): a 404, a 200 carrying the parsed
`versions` array, or any other status (with its message). -/
inductive RegistryResponse where
  | notFound
  | ok (versions : List String)
  | other (status : Nat) (message : String)
deriving DecidableEq, Repr

/-- External inputs of one run: the filesystem, the regex engine applied to
a file's text, the registry's response per package name, the GitHub
list-tags call, the working-directory artifact listing (for diagnostics and
push), and the push tool's captured output. -/
structure World where
  fileExists : String → Bool
  fileData : String → Option String
  exec : String → Option ExecResult
  registry : String → RegistryResponse
  listTags : Except String (List String)
  cwdListing : List String
  artifacts : List String
  pushOutput : CmdOutput

/-- The value `getFileVersions`'s read callback stores in
`this.projectVersions[pf]` when the regex matches: `m[1]`, the first capture
group — which is `undefined` (here `none`) when the pattern has no capture
groups.  `none` is also the result when the pattern does not match (nothing
is stored).  A failed read leaves `data` `undefined`, which the callback
still feeds to the regex (there is no early return after the bail), coerced
to the string `"undefined"`. -/
def versionWritten (w : World) (pf : String) : Option String :=
  (w.exec (jsStr (w.fileData pf))).bind (fun m => m.jsIndex 1)

/-- The events of `getFileVersions`'s read callback for one manifest: a bail
on a read error; then on a match an info line with the found version, and on
a mismatch the raw file contents (`core.info(data)`) followed by the
`VersionParseError` bail. -/
def readCallbackEvents (w : World) (pf : String) : List Ev :=
  let errEvents : List Ev :=
    match w.fileData pf with
    | none => [Ev.bail ("unable to read " ++ pf)]
    | some _ => []
  let data := jsStr (w.fileData pf)
  match w.exec data with
  | some m =>
    errEvents ++ [Ev.info ("Found version " ++ jsStr (m.jsIndex 1) ++ " for " ++ pf)]
  | none =>
    errEvents ++ [Ev.info data,
      Ev.bail ("unable to determine version for " ++ pf ++ " using regex")]

/-! ## The publish decision
(`Publisher._getVersionExists` and `determineIfPublishingIsNeeded`) -/

/-- The boolean `_getVersionExists` resolves with, given the version it read
from `this.projectVersions` and the registry's response: `false` on a 404
("package never published"), and on a 200 the JS membership test
`remoteVersions["versions"].indexOf(thisVersion) > -1` — which is `false`
when `thisVersion` is `undefined`, since the array holds strings.  On any
other status the promise is never resolved (the code only bails), so this
value is unused there. -/
def jsVersionExists (thisVersion : Option String) : RegistryResponse → Bool
  | .notFound => false
  | .ok versions =>
    match thisVersion with
    | some v => versions.contains v
    | none => false
  | .other _ _ => false

/-- The version set a response denotes, as the spec describes it: a 404 is
the empty set, a 200 is its `versions` array. -/
def versionSetOf : RegistryResponse → List String
  | .notFound => []
  | .ok versions => versions
  | .other _ _ => []

/-- The sequential `for await` loop of `determineIfPublishingIsNeeded` over
the remaining project files, `i` being the iteration index.  `view i pf` is
the value `this.projectVersions[pf]` held when iteration `i` reads it (the
read happens synchronously when `_getVersionExists` is called).  A project
is pushed onto `requiresPublishing`, preserving iteration order, iff its
`_getVersionExists` resolves `false`.  On a non-404/200 status the code
bails and never resolves the promise, so the loop — and everything after it
— never continues: the result is `none`. -/
def determineLoop (reg : String → RegistryResponse) (view : Nat → String → Option String) :
    List String → Nat → List Ev × Option (List String)
  | [], _ => ([], some [])
  | pf :: rest, i =>
    let packageName := getPackageName pf
    let thisVersion := view i pf
    match reg packageName with
    | .other _ _ =>
      ([Ev.bail ("unable to determine remote version for " ++ packageName)], none)
    | r =>
      let (evs, tail?) := determineLoop reg view rest (i + 1)
      (evs, tail?.map (fun tail =>
        if jsVersionExists thisVersion r then tail else pf :: tail))

/-! ## Branch suffix and tagging
(`Publisher._getBranchVersionSuffix`, `_getExistingTags`, `tagCommit`) -/

/-- JS `s.startsWith(pre)`. -/
def jsStartsWith (s pre : String) : Bool := pre.toList.isPrefixOf s.toList

/-- `Publisher._getBranchVersionSuffix`, with its log events.  The first
configured entry that starts with the current branch name is selected; no
entry (or an empty one) gives the empty suffix.  The template is the part of
the entry between the first and second `=` (`setting.split('=', 2)[1]`); an
entry with no `=` makes that `undefined`, and `_performDateInfill` then
throws a `TypeError` (modelled as `none` and a crash event). -/
def getBranchVersionSuffixR (p : Publisher) : List Ev × Option String :=
  let checking := Ev.info ("Checking branch suffix for " ++ p.headBranch)
  match p.branchVersionSuffixes.find? (fun f => jsStartsWith f p.headBranch) with
  | none => ([checking], some "")
  | some setting =>
    if setting = "" then ([checking], some "")
    else
      match (jsSplitLimit setting '=' 2).get? 1 with
      | none => ([checking, Ev.crash "TypeError: match of undefined"], none)
      | some template =>
        let result := applySuffixTemplate p.now p.sha template
        ([checking, Ev.info ("Found branch version suffix settings: " ++ result)],
         some result)

/-- The branch suffix without the events. -/
def getBranchVersionSuffix (p : Publisher) : Option String :=
  (getBranchVersionSuffixR p).2

/-- `Publisher._getGitHub` bails (without throwing) when no repo token was
configured. -/
def tokenEvents (p : Publisher) : List Ev :=
  if p.githubToken = "" then [Ev.bail "GITHUB TOKEN REQUIRED!"] else []

/-- `Publisher._getExistingTags`: the list-tags call's result, with any
error caught, logged at debug level, and replaced by the empty list. -/
def getExistingTags (listing : Except String (List String)) : List String :=
  match listing with
  | .ok tags => tags
  | .error _ => []

/-- How `tagCommit` ended: branch not taggable (early return), a thrown
`TypeError` (rejecting the promise), or a computed tag name carried through
tag-object and ref creation. -/
inductive TagOutcome where
  | skipped
  | crashed
  | tagged (name : String)
deriving DecidableEq, Repr

/-- `Publisher.tagCommit`.  If the current branch is not in the configured
taggable list, nothing happens.  Otherwise the tag name is the tag format
with every `*` replaced by the first project's stored version (JS-coerced
when `undefined`), with the branch suffix appended.  Every existing tag
equal to the computed name triggers a `Tag already exists` bail — which
logs and marks the run failed but does NOT stop execution, so the tag
object and the ref are still created afterwards. -/
def tagCommitRun (p : Publisher) (version : Option String)
    (listing : Except String (List String)) : List Ev × TagOutcome :=
  if p.tagCommits.contains p.headBranch then
    let (sufEvs, suffix?) := getBranchVersionSuffixR p
    match suffix? with
    | none => (sufEvs, .crashed)
    | some versionSuffix =>
      let tagFormatted := jsReplaceAllChar '*' (jsStr version) p.tagFormat
      let tagName := tagFormatted ++ versionSuffix
      let listEvs : List Ev :=
        match listing with
        | .ok _ => []
        | .error e => [Ev.debug e]
      let dupEvs := (getExistingTags listing).filterMap (fun t =>
        if t = tagName then some (Ev.bail "Tag already exists") else none)
      let tagMessage := "Tagging commit #" ++ p.sha ++ " with " ++ tagName
      (sufEvs ++ tokenEvents p ++ listEvs ++ dupEvs ++ tokenEvents p
        ++ [Ev.info tagMessage, Ev.createTag tagName,
            Ev.info "applying tag to repo", Ev.createRef tagName],
       .tagged tagName)
  else ([], .skipped)

/-! ## Build and the whole run
(`Publisher.startBuilding`, `ensureFormat`, `ensureExists`, `run`) -/

/-- The pack command line assembled in `startBuilding`. -/
def packCommand (p : Publisher) (pf : String) (setVersionParam : String) : String :=
  "dotnet pack" ++ buildSymbolsString p.includeSymbols ++ setVersionParam
    ++ " --no-build -c Release " ++ pf ++ " -o ."

/-- `Publisher.startBuilding` over the projects that require publishing:
for each, recompute the branch suffix (a `TypeError` there escapes the
`forEach` and rejects the stage), derive the optional
`-p:PackageVersion` parameter from it, and run build then pack.  The
`Bool` is true when the stage crashed. -/
def startBuildingRun (p : Publisher) (vmap : String → Option String) :
    List String → List Ev × Bool
  | [] => ([], false)
  | pf :: rest =>
    let packageName := getPackageName pf
    let packageVersion := vmap pf
    let (sufEvs, suffix?) := getBranchVersionSuffixR p
    match suffix? with
    | none => (sufEvs, true)
    | some versionSuffix =>
      let setVersionParam :=
        if versionSuffix ≠ ""
        then " -p:PackageVersion=\"" ++ jsStr packageVersion ++ "-" ++ versionSuffix ++ "\""
        else ""
      let evs := sufEvs
        ++ [Ev.info ("Starting build process for " ++ packageName ++ " version "
              ++ jsStr packageVersion ++ versionSuffix),
            Ev.buildCmd ("dotnet build -c Release " ++ pf ++ setVersionParam),
            Ev.packCmd (packCommand p pf setVersionParam)]
      let (evs', crashed) := startBuildingRun p vmap rest
      (evs ++ evs', crashed)

/-- `Publisher.ensureFormat`: bails when the project-file list is empty. -/
def ensureFormatEvents (p : Publisher) : List Ev :=
  if p.projectFiles.isEmpty then [Ev.bail "project files not set or improperly set"] else []

/-- `Publisher._checkIfProjectExists`: on a missing manifest, log the
working directory listing and bail (and, the bail not throwing, continue). -/
def checkIfProjectExistsEvents (w : World) (pf : String) : List Ev :=
  if w.fileExists pf then []
  else Ev.info "cwd" :: w.cwdListing.map (fun f => Ev.info ("-> " ++ f))
    ++ [Ev.bail ("Unable to find project " ++ pf)]

/-- `Publisher.ensureExists` over all manifests. -/
def ensureExistsEvents (p : Publisher) (w : World) : List Ev :=
  (p.projectFiles.map (checkIfProjectExistsEvents w)).flatten

/-- The events of all of `getFileVersions`'s read callbacks, in manifest
order, when the completed reads are processed by the event loop. -/
def flushEvents (p : Publisher) (w : World) : List Ev :=
  (p.projectFiles.map (readCallbackEvents w)).flatten

/-- `this.projectVersions` once every read callback has run: the value
stored for each configured manifest (reading a JS property that was never
written, or was written `undefined`, both give `undefined`). -/
def versionsMapAfterReads (p : Publisher) (w : World) (pf : String) : Option String :=
  if p.projectFiles.contains pf then versionWritten w pf else none

/-- What `this.projectVersions[pf]` holds when iteration `i` of
`determineIfPublishingIsNeeded` reads it.  `getFileVersions` only QUEUES its
`fs.readFile` callbacks and resolves immediately; the promise-chain
continuation that starts `determineIfPublishingIsNeeded` is a microtask and
therefore runs before any I/O callback.  So the first iteration's read
(which happens synchronously, before the first `await`) sees the map still
empty; the queued read callbacks then complete during the first network
await, before any later iteration. -/
def runView (p : Publisher) (w : World) (i : Nat) (pf : String) : Option String :=
  if i = 0 then none else versionsMapAfterReads p w pf

/-- `determineIfPublishingIsNeeded` as `run` executes it. -/
def determineStage (p : Publisher) (w : World) : List Ev × Option (List String) :=
  determineLoop w.registry (runView p w) p.projectFiles 0

/-- The version `tagCommit` reads:
`this.projectVersions[this.projectFiles[0]]` (by tagging time all read
callbacks have completed). -/
def tagVersionInput (p : Publisher) (w : World) : Option String :=
  p.projectFiles.head?.bind (versionsMapAfterReads p w)

/-- `Publisher.run`: the chained stages in order.  No stage throws except a
`TypeError` in suffix computation, which the chain's `.catch` logs
(`core.info`), skipping the stages nested inside the rejected one; a
never-resolving `_getVersionExists` bail (non-404/200 status) leaves every
later stage unreached.  The file-read callback events (`flushEvents`) are
placed where the event loop runs them: during the first await of the
decision stage, before any decision-stage event. -/
def runTrace (p : Publisher) (w : World) : List Ev :=
  let (detEvs, req?) := determineStage p w
  ensureFormatEvents p ++ ensureExistsEvents p w ++ flushEvents p w ++ detEvs ++
    match req? with
    | none => []
    | some req =>
      let (tagEvs, outcome) := tagCommitRun p (tagVersionInput p w) w.listTags
      tagEvs ++
        match outcome with
        | .crashed => [Ev.info "caught error"]
        | _ =>
          let (buildEvs, crashed) := startBuildingRun p (versionsMapAfterReads p w) req
          buildEvs ++
            if crashed then [Ev.info "caught error"]
            else pushToServer p w.artifacts w.pushOutput

/-! ## Concrete instances used by witnesses and counterexamples -/

/-- A registry holding version 1.0.0 of package A and nothing else. -/
def regW : String → RegistryResponse :=
  fun n => if n = "A" then .ok ["1.0.0"] else .notFound

/-- Extracted versions for two manifests. -/
def vmapW : String → Option String :=
  fun pf => if pf = "A.csproj" then some "1.0.0" else some "2.0.0"

/-- Whether a response is the fatal non-404/200 case. -/
def RegistryResponse.isOther : RegistryResponse → Bool
  | .other _ _ => true
  | _ => false

/-- A configuration whose computed tag name collides with an existing tag. -/
def pubDup : Publisher where
  nugetSource := "https://ng"
  nugetKey := "k"
  includeSymbols := none
  projectFiles := ["a.csproj"]
  tagCommits := ["main"]
  tagFormat := "v*"
  branchVersionSuffixes := [""]
  headBranch := "main"
  githubToken := "t"
  now := ⟨2024, 3, 5, 0, 0⟩
  sha := "deadbeef0"

/-- A configuration with symbol packages enabled. -/
def pubSym : Publisher :=
  { pubDup with includeSymbols := some "true" }

/-- A full-run world: one manifest with version 1.2.0, a registry that has
never seen the package, and an existing tag equal to the computed name. -/
def worldDup : World where
  fileExists := fun _ => true
  fileData := fun pf => if pf = "a.csproj" then some "<Version>1.2.0</Version>" else none
  exec := fun d =>
    if d = "<Version>1.2.0</Version>"
    then some ⟨"<Version>1.2.0</Version>", [some "1.2.0"]⟩
    else none
  registry := fun _ => .notFound
  listTags := .ok ["v1.2.0"]
  cwdListing := []
  artifacts := ["a.1.2.0.nupkg"]
  pushOutput := ⟨"done", ""⟩

/-- The `worldDup` run against a registry that already lists version
1.2.0 of every package. -/
def worldPublished : World :=
  { worldDup with registry := fun _ => .ok ["1.2.0"] }

/-- A match of a pattern that has no capturing groups. -/
def execNoGroups : ExecResult := ⟨"1.2.0", []⟩

/-- A world whose regex (one without capture groups) matches the manifest. -/
def worldNoGroups : World :=
  { worldDup with
    fileData := fun _ => some "ver 1.2.0 rest"
    exec := fun d => if d = "ver 1.2.0 rest" then some execNoGroups else none }

/-- Push-tool output whose error is only on standard error. -/
def stderrOnlyOutput : CmdOutput := ⟨"push ok", "error: 409 conflict"⟩

/-- The version claim C6 describes, following the spec's words (for
comparison with the code's `versionWritten`): the first capturing-group
match or, when the pattern has no capturing groups, the first whole
match. -/
def specExtractedVersion (m : ExecResult) : Option String :=
  if m.groups = [] then some m.whole else (m.groups.get? 0).join

/-! ## Helper lemmas -/

theorem braceMatchFirst_eq_none {l : List Char} (h : '{' ∉ l) :
    braceMatchFirst l = none := by
  induction l with
  | nil => rfl
  | cons c cs ih =>
    have hc : c ≠ '{' := fun hc => h (hc ▸ List.mem_cons_self c cs)
    simp only [braceMatchFirst, if_neg (fun hx : c = '{' => hc hx)]
    exact ih (fun hm => h (List.mem_cons_of_mem _ hm))

theorem flatten_map_replace_eq_self {c : Char} {repl : List Char} {l : List Char}
    (h : c ∉ l) :
    (l.map (fun x => if x = c then repl else [x])).flatten = l := by
  induction l with
  | nil => rfl
  | cons d ds ih =>
    have hd : d ≠ c := fun hd => h (hd ▸ List.mem_cons_self d ds)
    simp only [List.map_cons, List.flatten_cons, if_neg hd]
    rw [ih (fun hm => h (List.mem_cons_of_mem _ hm))]
    rfl

theorem jsReplaceAllChar_eq_self {c : Char} {repl : String} {s : String}
    (h : c ∉ s.toList) : jsReplaceAllChar c repl s = s := by
  unfold jsReplaceAllChar
  rw [flatten_map_replace_eq_self h]
  cases s
  rfl

/-- C4: the branch-suffix template transformation substitutes the
brace-delimited date placeholder with the rendered UTC timestamp first and
then replaces every `*` with the first 7 characters of the commit hash; a
template with no `*` and no placeholder passes through unchanged, and
`pre-\x7byyMMdd\x7d-*` with date 2024-03-05 and hash `abc1234567` yields
`pre-240305-abc1234`. -/
theorem c4_suffix_template (now : DateTimeUTC) (sha template : String)
    (hstar : '*' ∉ template.toList) (hbrace : '{' ∉ template.toList) :
    applySuffixTemplate now sha template
        = performHashReplacement sha (performDateInfill now template) ∧
    applySuffixTemplate now sha template = template ∧
    applySuffixTemplate ⟨2024, 3, 5, 0, 0⟩ "abc1234567" "pre-\x7byyMMdd\x7d-*"
        = "pre-240305-abc1234" := by
  refine ⟨rfl, ?_, by decide⟩
  unfold applySuffixTemplate performDateInfill
  rw [braceMatchFirst_eq_none hbrace]
  unfold performHashReplacement
  exact jsReplaceAllChar_eq_self hstar

/-- Witness for C4 at the template `rc1`. -/
theorem c4_suffix_template_witness :
    applySuffixTemplate ⟨2024, 3, 5, 0, 0⟩ "abc1234567" "rc1"
        = performHashReplacement "abc1234567" (performDateInfill ⟨2024, 3, 5, 0, 0⟩ "rc1") ∧
    applySuffixTemplate ⟨2024, 3, 5, 0, 0⟩ "abc1234567" "rc1" = "rc1" ∧
    applySuffixTemplate ⟨2024, 3, 5, 0, 0⟩ "abc1234567" "pre-\x7byyMMdd\x7d-*"
        = "pre-240305-abc1234" :=
  c4_suffix_template ⟨2024, 3, 5, 0, 0⟩ "abc1234567" "rc1" (by decide) (by decide)

/-- C8 counterexample: with `INCLUDE_SYMBOLS = "true"` the pack command does
carry the symbol-package flags, but the push command does NOT carry
`-n 1` — the claim's "both include their flag iff true" is false. -/
theorem c8_counterexample :
    jsToLower ((some "true").getD "false") = "true" ∧
    hasSubstr "--include-symbols" (packCommand pubSym "a.csproj" "") = true ∧
    publishSymbolsString (some "true") = "" ∧
    hasSubstr " -n 1 " (pushCommand pubSym) = false := by decide

/-- C8 (amended): the pack command carries the symbol-package flags iff
`INCLUDE_SYMBOLS` lowercases to `"true"`, while the push command carries
` -n 1 ` iff it lowercases to `"false"` (so with symbols enabled the push
parameter is absent, and with the default it is present). -/
theorem c8_symbol_flags (includeSymbols : Option String) (p : Publisher)
    (pf setVersionParam : String) :
    (buildSymbolsString includeSymbols ≠ ""
        ↔ jsToLower (includeSymbols.getD "false") = "true") ∧
    (publishSymbolsString includeSymbols = " -n 1 "
        ↔ jsToLower (includeSymbols.getD "false") = "false") ∧
    packCommand p pf setVersionParam
        = "dotnet pack" ++ buildSymbolsString p.includeSymbols ++ setVersionParam
          ++ " --no-build -c Release " ++ pf ++ " -o ." ∧
    pushCommand p
        = "dotnet nuget push *.nupkg -s " ++ p.nugetSource ++ "/v3/index.json -k "
          ++ p.nugetKey ++ " --skip-duplicate" ++ publishSymbolsString p.includeSymbols := by
  refine ⟨?_, ?_, rfl, rfl⟩
  · by_cases h : jsToLower (includeSymbols.getD "false") = "true" <;>
      simp [buildSymbolsString, h]
  · by_cases h : jsToLower (includeSymbols.getD "false") = "false" <;>
      simp [publishSymbolsString, h]

theorem firstOccurrenceTail_eq_none {pat l : List Char}
    (h : ∀ i, pat.isPrefixOf (l.drop i) = false) :
    firstOccurrenceTail pat l = none := by
  induction l with
  | nil =>
    have h0 : pat.isPrefixOf [] = false := by simpa using h 0
    unfold firstOccurrenceTail
    split
    · next heq => rw [heq] at h0; simp [List.isPrefixOf] at h0
    · rfl
  | cons c cs ih =>
    have h0 : pat.isPrefixOf (c :: cs) = false := by simpa using h 0
    simp only [firstOccurrenceTail, h0, Bool.false_eq_true, if_false]
    exact ih (fun i => by simpa using h (i + 1))

theorem firstOccurrenceTail_eq_some {pat l : List Char} (i : Nat)
    (hi : pat.isPrefixOf (l.drop i) = true)
    (hmin : ∀ j, j < i → pat.isPrefixOf (l.drop j) = false) :
    firstOccurrenceTail pat l = some (l.drop i) := by
  induction l generalizing i with
  | nil =>
    simp only [List.drop_nil] at hi ⊢
    have hp : pat = [] := by cases pat <;> simp_all [List.isPrefixOf]
    unfold firstOccurrenceTail
    rw [if_pos hp]
  | cons c cs ih =>
    cases i with
    | zero =>
      simp only [List.drop_zero] at hi ⊢
      simp [firstOccurrenceTail, hi]
    | succ i =>
      have h0 : pat.isPrefixOf (c :: cs) = false := by
        simpa using hmin 0 (Nat.succ_pos i)
      simp only [List.drop_succ_cons] at hi ⊢
      simp only [firstOccurrenceTail, h0, Bool.false_eq_true, if_false]
      exact ih i hi (fun j hj => by simpa using hmin (j + 1) (Nat.succ_lt_succ hj))

/-- C7 counterexample: output whose only `error` text is on standard error.
The combined output contains the substring `error`, yet the push stage
raises no PushError — the code inspects `stdout` alone. -/
theorem c7_counterexample :
    jsTestError (stderrOnlyOutput.stdout ++ stderrOnlyOutput.stderr) = true ∧
    (pushToServer pubDup ["a.nupkg"] stderrOnlyOutput).all (fun e => !e.isBail) = true := by
  decide

/-- C7 (amended): after the push tool runs, its captured STANDARD OUTPUT
(stderr is not inspected) is scanned for the substring `error`; iff present,
the run fails with a PushError whose message is the text from the first
occurrence of `error` to the end of that line. -/
theorem c7_push_scan (p : Publisher) (artifacts : List String) (out : CmdOutput) (i : Nat)
    (hi : "error".toList.isPrefixOf (out.stdout.toList.drop i) = true)
    (hmin : ∀ j, j < i → "error".toList.isPrefixOf (out.stdout.toList.drop j) = false) :
    pushToServer p artifacts out
      = [Ev.info ("Sending packages... (" ++ jsJoin ", " artifacts ++ ")"),
         Ev.pushCmd (pushCommand p),
         Ev.info out.stdout,
         Ev.bail (String.mk ((out.stdout.toList.drop i).takeWhile
            (fun c => !(c == '\n' || c == '\r'))))] ∧
    (∀ out2 : CmdOutput,
      (∀ j, "error".toList.isPrefixOf (out2.stdout.toList.drop j) = false) →
      (pushToServer p artifacts out2).all (fun e => !e.isBail) = true) := by
  constructor
  · simp only [pushToServer, jsTestError, hasSubstr, jsExecErrorLine,
      firstOccurrenceTail_eq_some i hi hmin]
    simp [jsStr]
  · intro out2 h2
    simp only [pushToServer, jsTestError, hasSubstr,
      firstOccurrenceTail_eq_none h2]
    simp [Ev.isBail]

/-- Witness for C7 at concrete output `x\nerror: 409 conflict`. -/
theorem c7_push_scan_witness :
    pushToServer pubDup ["a.nupkg"] ⟨"x\nerror: 409 conflict", ""⟩
      = [Ev.info "Sending packages... (a.nupkg)",
         Ev.pushCmd (pushCommand pubDup),
         Ev.info "x\nerror: 409 conflict",
         Ev.bail (String.mk ((("x\nerror: 409 conflict").toList.drop 2).takeWhile
            (fun c => !(c == '\n' || c == '\r'))))] ∧
    (∀ out2 : CmdOutput,
      (∀ j, "error".toList.isPrefixOf (out2.stdout.toList.drop j) = false) →
      (pushToServer pubDup ["a.nupkg"] out2).all (fun e => !e.isBail) = true) :=
  c7_push_scan pubDup ["a.nupkg"] ⟨"x\nerror: 409 conflict", ""⟩ 2 (by decide)
    (by decide)

/-- C6 counterexample: a pattern with no capturing groups matches
`"ver 1.2.0 rest"` with whole match `1.2.0`.  The claim says the extracted
version is then the whole match; the code stores `m[1]`, which is
`undefined`. -/
theorem c6_counterexample :
    specExtractedVersion execNoGroups = some "1.2.0" ∧
    worldNoGroups.exec "ver 1.2.0 rest" = some execNoGroups ∧
    versionWritten worldNoGroups "proj.csproj" = none := by decide

/-- C6 (amended): when the pattern matches, the stored version is the first
capturing-group match `m[1]` — absent (`undefined`) when the pattern has no
capturing groups; when the pattern does not match, the extraction bails with
the version-parse error after logging the raw file contents as the
diagnostic. -/
theorem c6_version_extraction (w : World) (pf data : String) (m : ExecResult)
    (hdata : w.fileData pf = some data) :
    (w.exec data = some m → versionWritten w pf = m.jsIndex 1) ∧
    (w.exec data = none → versionWritten w pf = none ∧
      readCallbackEvents w pf
        = [Ev.info data,
           Ev.bail ("unable to determine version for " ++ pf ++ " using regex")]) := by
  constructor
  · intro hm
    simp only [versionWritten, hdata, jsStr, Option.getD_some, hm]
    rfl
  · intro hm
    constructor
    · simp only [versionWritten, hdata, jsStr, Option.getD_some, hm]
      rfl
    · simp only [readCallbackEvents, hdata, jsStr, Option.getD_some, hm]
      rfl

/-- Witness for C6 at the `worldDup` manifest. -/
theorem c6_version_extraction_witness :
    (worldDup.exec "<Version>1.2.0</Version>"
        = some ⟨"<Version>1.2.0</Version>", [some "1.2.0"]⟩ →
      versionWritten worldDup "a.csproj"
        = ExecResult.jsIndex ⟨"<Version>1.2.0</Version>", [some "1.2.0"]⟩ 1) ∧
    (worldDup.exec "<Version>1.2.0</Version>" = none →
      versionWritten worldDup "a.csproj" = none ∧
      readCallbackEvents worldDup "a.csproj"
        = [Ev.info "<Version>1.2.0</Version>",
           Ev.bail ("unable to determine version for " ++ "a.csproj" ++ " using regex")]) :=
  c6_version_extraction worldDup "a.csproj" "<Version>1.2.0</Version>"
    ⟨"<Version>1.2.0</Version>", [some "1.2.0"]⟩ (by decide)

/-- The branch-suffix computation never bails: its events are info lines or
the `TypeError` crash. -/
theorem suffix_events_no_bail (p : Publisher) :
    (getBranchVersionSuffixR p).1.all (fun e => !e.isBail) = true := by
  unfold getBranchVersionSuffixR
  split
  · simp [Ev.isBail]
  · split
    · simp [Ev.isBail]
    · split <;> simp [Ev.isBail]

/-- C5: when the current branch is not in the configured taggable list,
`tagCommit` returns immediately — no tag name is computed and no tagging
event occurs; when it is in the list, the computed tag name is the tag
format with every `*` replaced by the version passed in (the first
project's extracted version, per the third conjunct) and the computed
branch suffix appended. -/
theorem c5_tag_name (p : Publisher) (v suffix : String) :
    (p.tagCommits.contains p.headBranch = false →
      ∀ version listing, tagCommitRun p version listing = ([], .skipped)) ∧
    (p.tagCommits.contains p.headBranch = true →
      getBranchVersionSuffix p = some suffix →
      ∀ listing, (tagCommitRun p (some v) listing).2
        = .tagged (jsReplaceAllChar '*' v p.tagFormat ++ suffix)) ∧
    (∀ w pf rest, p.projectFiles = pf :: rest →
      tagVersionInput p w = versionsMapAfterReads p w pf) := by
  refine ⟨?_, ?_, ?_⟩
  · intro h version listing
    unfold tagCommitRun
    rw [if_neg (by rw [h]; exact Bool.false_ne_true)]
  · intro h hs listing
    rcases hE : getBranchVersionSuffixR p with ⟨evs, s?⟩
    unfold getBranchVersionSuffix at hs
    rw [hE] at hs
    simp only at hs
    subst hs
    unfold tagCommitRun
    rw [if_pos h, hE]
    simp [jsStr]
  · intro w pf rest hpf
    simp [tagVersionInput, hpf]

/-- C10: an error from the existing-tags listing is caught, logged at debug
level and replaced by the empty tag list, so the duplicate check passes
vacuously and tag-object and ref creation proceed with no bail at all. -/
theorem c10_listing_error (p : Publisher) (version : Option String) (e suffix : String)
    (hb : p.tagCommits.contains p.headBranch = true)
    (hs : getBranchVersionSuffix p = some suffix)
    (ht : p.githubToken ≠ "") :
    getExistingTags (.error e) = [] ∧
    tagCommitRun p version (.error e)
      = ((getBranchVersionSuffixR p).1 ++ [Ev.debug e,
          Ev.info ("Tagging commit #" ++ p.sha ++ " with "
            ++ (jsReplaceAllChar '*' (jsStr version) p.tagFormat ++ suffix)),
          Ev.createTag (jsReplaceAllChar '*' (jsStr version) p.tagFormat ++ suffix),
          Ev.info "applying tag to repo",
          Ev.createRef (jsReplaceAllChar '*' (jsStr version) p.tagFormat ++ suffix)],
         .tagged (jsReplaceAllChar '*' (jsStr version) p.tagFormat ++ suffix)) ∧
    (tagCommitRun p version (.error e)).1.all (fun ev => !ev.isBail) = true := by
  rcases hE : getBranchVersionSuffixR p with ⟨evs, s?⟩
  have hs' : s? = some suffix := by
    have h := hs
    unfold getBranchVersionSuffix at h
    rw [hE] at h
    exact h
  subst hs'
  have htr : tagCommitRun p version (.error e)
      = (evs ++ [Ev.debug e,
          Ev.info ("Tagging commit #" ++ p.sha ++ " with "
            ++ (jsReplaceAllChar '*' (jsStr version) p.tagFormat ++ suffix)),
          Ev.createTag (jsReplaceAllChar '*' (jsStr version) p.tagFormat ++ suffix),
          Ev.info "applying tag to repo",
          Ev.createRef (jsReplaceAllChar '*' (jsStr version) p.tagFormat ++ suffix)],
         .tagged (jsReplaceAllChar '*' (jsStr version) p.tagFormat ++ suffix)) := by
    unfold tagCommitRun
    rw [if_pos hb, hE]
    simp [tokenEvents, ht, getExistingTags]
  refine ⟨rfl, by rw [htr], ?_⟩
  rw [htr]
  have hnb := suffix_events_no_bail p
  rw [hE] at hnb
  simp only [List.all_append, hnb, Bool.true_and]
  simp [Ev.isBail]

/-- Witness for C10: a concrete taggable configuration with a failing
list-tags call still creates the tag and the ref. -/
theorem c10_listing_error_witness :
    getExistingTags (Except.error "boom") = ([] : List String) ∧
    tagCommitRun pubDup (some "1.0.0") (.error "boom")
      = ((getBranchVersionSuffixR pubDup).1 ++ [Ev.debug "boom",
          Ev.info ("Tagging commit #" ++ pubDup.sha ++ " with "
            ++ (jsReplaceAllChar '*' (jsStr (some "1.0.0")) pubDup.tagFormat ++ "")),
          Ev.createTag (jsReplaceAllChar '*' (jsStr (some "1.0.0")) pubDup.tagFormat ++ ""),
          Ev.info "applying tag to repo",
          Ev.createRef (jsReplaceAllChar '*' (jsStr (some "1.0.0")) pubDup.tagFormat ++ "")],
         .tagged (jsReplaceAllChar '*' (jsStr (some "1.0.0")) pubDup.tagFormat ++ "")) ∧
    (tagCommitRun pubDup (some "1.0.0") (.error "boom")).1.all (fun ev => !ev.isBail)
      = true :=
  c10_listing_error pubDup (some "1.0.0") "boom" "" (by decide) (by decide) (by decide)

/-- C2 (code-bug evidence): at a configuration whose computed tag name
`v1.0.0` already exists, the run records the duplicate-tag bail and then
STILL creates the tag object and the ref — `core.setFailed` does not stop
execution. -/
theorem c2_ref_follows_duplicate :
    tagCommitRun pubDup (some "1.0.0") (.ok ["v1.0.0"])
      = ([Ev.info "Checking branch suffix for main",
          Ev.bail "Tag already exists",
          Ev.info "Tagging commit #deadbeef0 with v1.0.0",
          Ev.createTag "v1.0.0",
          Ev.info "applying tag to repo",
          Ev.createRef "v1.0.0"], .tagged "v1.0.0") := by decide

/-- Supporting lemma (NOT the program's behaviour): the decision loop run
against a FIXED version map — the view the loop would have if extraction had
completed before it, which the program does not guarantee (see the stale
first read below) — selects exactly the manifests whose mapped version is
absent from their package's version set (a 404 denoting the empty set),
preserving input order.  This isolates the membership logic of
`_getVersionExists` from the scheduling defect. -/
theorem determineLoop_selects_absent_versions (reg : String → RegistryResponse)
    (vmap : String → Option String) (pfs : List String) (i : Nat)
    (hgood : ∀ pf ∈ pfs, (reg (getPackageName pf)).isOther = false)
    (hver : ∀ pf ∈ pfs, (vmap pf).isSome = true) :
    determineLoop reg (fun _ => vmap) pfs i
      = ([], some (pfs.filter (fun pf =>
          !(versionSetOf (reg (getPackageName pf))).contains ((vmap pf).getD "")))) := by
  induction pfs generalizing i with
  | nil => rfl
  | cons pf rest ih =>
    have hgp := hgood pf (List.mem_cons_self pf rest)
    have hvp := hver pf (List.mem_cons_self pf rest)
    obtain ⟨v, hv⟩ := Option.isSome_iff_exists.mp hvp
    have ihr := ih (i + 1) (fun q hq => hgood q (List.mem_cons_of_mem _ hq))
      (fun q hq => hver q (List.mem_cons_of_mem _ hq))
    rcases hreg : reg (getPackageName pf) with _ | vs | ⟨st, msg⟩
    · simp only [determineLoop, hreg, ihr, hv, List.filter_cons]
      simp [jsVersionExists, versionSetOf]
    · simp only [determineLoop, hreg, ihr, hv, List.filter_cons]
      by_cases hc : vs.contains v = true
      · simp [jsVersionExists, versionSetOf, hc]
      · simp only [Bool.not_eq_true] at hc
        simp [jsVersionExists, versionSetOf, hc]
    · rw [hreg] at hgp
      simp [RegistryResponse.isOther] at hgp

/-- C1 (code-bug evidence): the claimed iff fails on the program.  At this
input the manifest's extracted version `1.2.0` IS present in its package's
registry version set, so the claim requires the manifest to be excluded
from the decision set — yet the decision stage includes it, because its
membership test ran against the stale `undefined` read of
`this.projectVersions` (the `fs.readFile` callbacks were never awaited). -/
theorem c1_stale_decision_includes_published :
    versionWritten worldPublished "a.csproj" = some "1.2.0" ∧
    (versionSetOf (worldPublished.registry (getPackageName "a.csproj"))).contains "1.2.0"
      = true ∧
    runView pubDup worldPublished 0 "a.csproj" = none ∧
    determineStage pubDup worldPublished = ([], some ["a.csproj"]) := by decide

/-- C9 (code-bug evidence): `getFileVersions` never awaits its read
callbacks, so the decision stage's first read of `projectVersions` sees the
map still empty (`runView _ _ 0 _ = none`) — and the manifest is therefore
put into the decision set even when its extracted version IS present in the
registry's version set. -/
theorem c9_stale_version_read (p : Publisher) (w : World) (pf v : String) (vs : List String)
    (hpf : p.projectFiles = [pf])
    (hreg : w.registry (getPackageName pf) = .ok vs)
    (_hver : versionWritten w pf = some v)
    (_hmem : vs.contains v = true) :
    runView p w 0 pf = none ∧
    determineStage p w = ([], some [pf]) := by
  refine ⟨rfl, ?_⟩
  unfold determineStage
  rw [hpf]
  simp [determineLoop, hreg, runView, jsVersionExists]

/-- Witness for C9: the manifest's version 1.2.0 is listed by the registry,
yet the run still decides to publish it. -/
theorem c9_stale_version_read_witness :
    runView pubDup worldPublished 0 "a.csproj" = none ∧
    determineStage pubDup worldPublished = ([], some ["a.csproj"]) :=
  c9_stale_version_read pubDup worldPublished "a.csproj" "1.2.0" ["1.2.0"]
    (by decide) (by decide) (by decide) (by decide)

/-- C3 (code-bug evidence): a full run in which the duplicate-tag error is
reported (the bail event) and yet tag creation, build, pack and push all
still execute afterwards — the first error is not terminal. -/
theorem c3_error_not_terminal :
    runTrace pubDup worldDup
      = [Ev.info "Found version 1.2.0 for a.csproj",
         Ev.info "Checking branch suffix for main",
         Ev.bail "Tag already exists",
         Ev.info "Tagging commit #deadbeef0 with v1.2.0",
         Ev.createTag "v1.2.0",
         Ev.info "applying tag to repo",
         Ev.createRef "v1.2.0",
         Ev.info "Checking branch suffix for main",
         Ev.info "Starting build process for a version 1.2.0",
         Ev.buildCmd "dotnet build -c Release a.csproj",
         Ev.packCmd "dotnet pack --no-build -c Release a.csproj -o .",
         Ev.info "Sending packages... (a.1.2.0.nupkg)",
         Ev.pushCmd "dotnet nuget push *.nupkg -s https://ng/v3/index.json -k k --skip-duplicate -n 1 ",
         Ev.info "done"] := by decide
